import Mathlib

/-!
Verification of the core of the maven-package-readme-mcp-server repository:
the bounded TTL cache (`src/services/cache.ts`, class `CacheService`), the
version resolution engine (`VersionResolver` in the same file), the retry /
backoff policy (`src/utils/error-handler.ts`, class `ErrorHandler`), and the
cache-key derivation (`CacheService.generateSearchKey`).

The TypeScript code is shallowly embedded:
* the JavaScript `Map` held by `CacheService` is modelled as an association
  list `List (String × CacheEntry α)` in insertion order; `Map.set` on an
  existing key updates the value in place (keeping the key's position, as
  JavaScript `Map` does) and otherwise appends;
* `Date.now()` is passed in explicitly as an `Int` argument `now`;
* JavaScript strings are modelled as `String` / `List Char`;
* the regular expressions used by `VersionResolver` are translated into
  explicit character-list scanners (JavaScript `.` does not match line
  terminators, which the scanners reproduce);
* `String.prototype.localeCompare` is modelled as code-point lexicographic
  comparison of the two strings;
* rejected promises / thrown exceptions are modelled with `Except` and an
  explicit `JsError` type mirroring the error classes of `src/types/index.ts`.
-/

namespace MavenCore

/-- `CacheEntry<T>` from `src/types/index.ts`: stored data plus the
`Date.now()` timestamp at which it was stored and its time to live. -/
structure CacheEntry (α : Type) where
  data : α
  timestamp : Int
  ttl : Int
  deriving DecidableEq, Repr

/-- The private `Map<string, CacheEntry<unknown>>` of `CacheService`,
modelled as an association list in insertion order. -/
abbrev Store (α : Type) := List (String × CacheEntry α)

/-- JavaScript `Map.prototype.get`. -/
def mapGet (m : Store α) (k : String) : Option (CacheEntry α) :=
  (m.find? (fun kv => kv.1 == k)).map (·.2)

/-- JavaScript `Map.prototype.set`: updates in place when the key is
present (keeping its position in insertion order), appends otherwise. -/
def mapSet (m : Store α) (k : String) (e : CacheEntry α) : Store α :=
  if m.any (fun kv => kv.1 == k) then
    m.map (fun kv => if kv.1 == k then (k, e) else kv)
  else
    m ++ [(k, e)]

/-- JavaScript `Map.prototype.delete` (as a pure function returning the
updated map). -/
def mapDelete (m : Store α) (k : String) : Store α :=
  m.filter (fun kv => kv.1 != k)

/-- The expiry test `now - entry.timestamp > entry.ttl` used by
`CacheService.get`, `has` and `cleanup`. -/
def isExpired (now : Int) (e : CacheEntry α) : Bool :=
  decide (now - e.timestamp > e.ttl)

/-- `CacheService.cleanup`: removes every currently-expired entry. -/
def cleanup (now : Int) (m : Store α) : Store α :=
  m.filter (fun kv => !isExpired now kv.2)

/-- The capacity-handling block at the top of `CacheService.set`: when
`size >= maxSize` the code first runs `cleanup()`; if still full it reads
`this.cache.keys().next().value` and deletes that key only when it is
truthy (`if (oldestKey)`), i.e. present and not the empty string. -/
def makeRoom (maxSize : Nat) (now : Int) (m : Store α) : Store α :=
  if maxSize ≤ m.length then
    if maxSize ≤ (cleanup now m).length then
      match (cleanup now m).head? with
      | some kv => if kv.1 = "" then cleanup now m else mapDelete (cleanup now m) kv.1
      | none => cleanup now m
    else cleanup now m
  else m

/-- `CacheService.set(key, data, ttl)` from `src/services/cache.ts`.
The `ttl` argument is the effective TTL (`ttl ?? this.defaultTtl`).
After the capacity-handling block (`makeRoom`) the new entry is inserted
via `Map.set`. -/
def cacheSet (maxSize : Nat) (now : Int) (key : String) (data : α) (ttl : Int)
    (m : Store α) : Store α :=
  mapSet (makeRoom maxSize now m) key ⟨data, now, ttl⟩

/-- `CacheService.get(key)`: returns the stored value if present and not
expired; if expired, deletes the entry as a side effect and reports
absent.  The pair is (returned value, cache map after the call). -/
def cacheGet (now : Int) (key : String) (m : Store α) : Option α × Store α :=
  match mapGet m key with
  | none => (none, m)
  | some e =>
    if isExpired now e then (none, mapDelete m key)
    else (some e.data, m)

/-- One `set` call of a sequence: the `Date.now()` value at call time, the
key, the stored data and the effective TTL. -/
structure SetOp (α : Type) where
  now : Int
  key : String
  data : α
  ttl : Int
  deriving DecidableEq, Repr

/-- Runs a sequence of `CacheService.set` calls against a store constructed
with bound `maxSize`, starting from the empty store. -/
def runSets (maxSize : Nat) (ops : List (SetOp α)) : Store α :=
  ops.foldl (fun m op => cacheSet maxSize op.now op.key op.data op.ttl m) []

/-- An ECMAScript line terminator (`\n`, `\r`, U+2028, U+2029); the regex
metacharacter `.` matches every character except these. -/
def isLineTerm (c : Char) : Bool :=
  c == '\n' || c == '\r' || c == ' ' || c == ' '

/-- JavaScript `Number` applied to a non-empty string of decimal digits. -/
def digitsToNat (l : List Char) : Nat :=
  l.foldl (fun n c => n * 10 + (c.toNat - '0'.toNat)) 0

/-- Scanner for the `(?:\.\d+)*` part of the version pattern: consumes as
many `.`‑then‑digits groups as possible and returns the groups together
with the unconsumed remainder (the suffix).  The `fuel` argument only
bounds the recursion depth (each step consumes at least two characters,
so `length + 1` is always enough). -/
def parseDotGroupsAux : Nat → List Char → List (List Char) × List Char
  | 0, l => ([], l)
  | fuel + 1, l =>
    match l with
    | [] => ([], [])
    | c :: r =>
      if c = '.' ∧ r.takeWhile Char.isDigit ≠ [] then
        let p := parseDotGroupsAux fuel (r.dropWhile Char.isDigit)
        (r.takeWhile Char.isDigit :: p.1, p.2)
      else ([], c :: r)

/-- `parseDotGroupsAux` with enough fuel to never run out. -/
def parseDotGroups (l : List Char) : List (List Char) × List Char :=
  parseDotGroupsAux (l.length + 1) l

/-- The `{ numbers, suffix }` record produced by the local `parseVersion`
helper inside `VersionResolver.compareVersions`. -/
structure ParsedVersion where
  numbers : List Nat
  suffix : List Char
  deriving DecidableEq, Repr

/-- The `parseVersion` helper of `VersionResolver.compareVersions`: matches
`^(\d+(?:\.\d+)*)(.*)$` (greedy, `.` not matching line terminators, so the
match fails when the string contains a line terminator or does not start
with a digit; then `{ numbers: [0], suffix: version }` is returned),
splits the numeric part on `.` and maps `Number` over the pieces. -/
def parseVersion (s : String) : ParsedVersion :=
  if s.data.takeWhile Char.isDigit = [] ∨ s.data.any isLineTerm then
    ⟨[0], s.data⟩
  else
    ⟨(s.data.takeWhile Char.isDigit
        :: (parseDotGroups (s.data.dropWhile Char.isDigit)).1).map digitsToNat,
      (parseDotGroups (s.data.dropWhile Char.isDigit)).2⟩

/-- The tail of the numeric-component loop of `compareVersions` once the
first sequence is exhausted: each remaining component of the second
sequence is compared against the zero padding (`numbers[i] || 0`). -/
def cmpZeros : List Nat → Int
  | [] => 0
  | b :: bs => if (0 : Nat) = b then cmpZeros bs else 0 - (b : Int)

/-- The numeric-component loop of `compareVersions`: compares the two
sequences position by position, padding the shorter with zeros
(`numbers[i] || 0`), and returns `numA - numB` at the first difference. -/
def cmpNums : List Nat → List Nat → Int
  | [], ys => cmpZeros ys
  | a :: as, [] => if a = 0 then cmpNums as [] else (a : Int) - 0
  | a :: as, b :: bs => if a = b then cmpNums as bs else (a : Int) - (b : Int)

/-- Model of `String.prototype.localeCompare`: code-point lexicographic
comparison returning -1, 0 or 1. -/
def lexCompare : List Char → List Char → Int
  | [], [] => 0
  | [], _ :: _ => -1
  | _ :: _, [] => 1
  | a :: as, b :: bs =>
    if a < b then -1 else if b < a then 1 else lexCompare as bs

/-- `VersionResolver.compareVersions(a, b)` from `src/services/cache.ts`:
compares numeric components first (zero padded); on a tie compares
suffixes, an absent suffix ranking above any present suffix, otherwise
`localeCompare`. -/
def compareVersions (a b : String) : Int :=
  if cmpNums (parseVersion a).numbers (parseVersion b).numbers ≠ 0 then
    cmpNums (parseVersion a).numbers (parseVersion b).numbers
  else if (parseVersion a).suffix ≠ (parseVersion b).suffix then
    if (parseVersion a).suffix = [] ∧ (parseVersion b).suffix ≠ [] then 1
    else if (parseVersion a).suffix ≠ [] ∧ (parseVersion b).suffix = [] then -1
    else lexCompare (parseVersion a).suffix (parseVersion b).suffix
  else 0

/-- The replacement `range.replace(/^[\[\(]|[\]\)]$/g, '')`: removes one
leading `[` or `(` and one trailing `]` or `)`. -/
def stripOuter (l : List Char) : List Char :=
  let l1 := match l with
    | c :: r => if c = '[' ∨ c = '(' then r else c :: r
    | [] => []
  match l1.getLast? with
  | some c => if c = ']' ∨ c = ')' then l1.dropLast else l1
  | none => l1

/-- JavaScript `String.prototype.split` with a single-character separator. -/
def jsSplit (sep : Char) : List Char → List (List Char)
  | [] => [[]]
  | c :: cs =>
    if c = sep then [] :: jsSplit sep cs
    else (c :: (jsSplit sep cs).headD []) :: (jsSplit sep cs).tail

/-- JavaScript `String.prototype.trim` (modelled over the usual ASCII
whitespace characters). -/
def jsTrim (l : List Char) : List Char :=
  ((l.dropWhile Char.isWhitespace).reverse.dropWhile Char.isWhitespace).reverse

/-- The `x?.trim() || undefined` / `length > 0` normalisation in
`parseVersionRange`: an empty string becomes `undefined`. -/
def emptyToNone (l : List Char) : Option String :=
  if l = [] then none else some (String.mk l)

/-- The record returned by `VersionResolver.parseVersionRange`. -/
structure VersionRange where
  minVersion : Option String
  maxVersion : Option String
  includeMin : Bool
  includeMax : Bool
  deriving DecidableEq, Repr

/-- `VersionResolver.parseVersionRange(range)`: strips the outer delimiter
characters, splits on `,`, takes `parts[0]` and `parts[1]` trimmed (empty
becomes undefined); `includeMin` iff the string starts with `[`,
`includeMax` iff it ends with `]`. -/
def parseVersionRange (range : String) : VersionRange where
  minVersion := ((jsSplit ',' (stripOuter range.data)).head?.map jsTrim).bind emptyToNone
  maxVersion := (((jsSplit ',' (stripOuter range.data)).drop 1).head?.map jsTrim).bind emptyToNone
  includeMin := range.data.head? == some '['
  includeMax := range.data.getLast? == some ']'

/-- `VersionResolver.versionMatchesRange(version, minVersion, maxVersion,
includeMin, includeMax)`: fails when the comparison against a present
bound violates its inclusivity, passes otherwise. -/
def versionMatchesRange (version : String) (minVersion maxVersion : Option String)
    (includeMin includeMax : Bool) : Bool :=
  (match minVersion with
   | none => true
   | some mv =>
     !(if includeMin then decide (compareVersions version mv < 0)
       else decide (compareVersions version mv ≤ 0))) &&
  (match maxVersion with
   | none => true
   | some mv =>
     !(if includeMax then decide (0 < compareVersions version mv)
       else decide (0 ≤ compareVersions version mv)))

deriving instance DecidableEq for Except

/-- The error classes of `src/types/index.ts` (and arbitrary other thrown
JavaScript values), as far as the retry/resolution logic inspects them:
`mcp` covers `PackageReadmeMcpError` and its subclasses (message, code,
optional HTTP status), `jsError` a plain `Error` (name, message), `other`
a thrown non-`Error` value (its `String(...)` rendering). -/
inductive JsError where
  | mcp (message : String) (code : String) (statusCode : Option Nat)
  | jsError (name : String) (message : String)
  | other (description : String)
  deriving DecidableEq, Repr

/-- `VersionNotFoundError(packageName, version)` from `src/types/index.ts`. -/
def VersionNotFoundError (packageName version : String) : JsError :=
  .mcp ("Version \x27" ++ version ++ "\x27 of package \x27" ++ packageName ++ "\x27 not found")
    "VERSION_NOT_FOUND" (some 404)

/-- `NetworkError(message)` from `src/types/index.ts`. -/
def NetworkError (message : String) : JsError :=
  .mcp ("Network error: " ++ message) "NETWORK_ERROR" none

/-- `RateLimitError(service)` from `src/types/index.ts`. -/
def RateLimitError (service : String) : JsError :=
  .mcp ("Rate limit exceeded for " ++ service) "RATE_LIMIT_EXCEEDED" (some 429)

/-- `VersionResolver.resolveVersionRange`, with the upstream
`mavenCentralApi.getVersions` result passed in as `versions` (the
upstream lister returns them sorted descending, newest first):
filters the known versions through `versionMatchesRange` and returns the
first match, or fails with `VersionNotFoundError` naming the original
range string. -/
def resolveVersionRange (packageName : String) (versions : List String)
    (range : String) : Except JsError String :=
  match versions.filter (fun v =>
      versionMatchesRange v (parseVersionRange range).minVersion
        (parseVersionRange range).maxVersion (parseVersionRange range).includeMin
        (parseVersionRange range).includeMax) with
  | [] => .error (VersionNotFoundError packageName range)
  | v :: _ => .ok v

/-- Specification-side reading of "the version satisfies both bounds with
their inclusivity": for a present lower bound the comparison must be
`≥ 0` (inclusive) or `> 0` (exclusive), symmetrically for the upper
bound. -/
def rangeSatisfies (v : String) (r : VersionRange) : Bool :=
  (match r.minVersion with
   | none => true
   | some mv =>
     if r.includeMin then decide (0 ≤ compareVersions v mv)
     else decide (0 < compareVersions v mv)) &&
  (match r.maxVersion with
   | none => true
   | some mv =>
     if r.includeMax then decide (compareVersions v mv ≤ 0)
     else decide (compareVersions v mv < 0))

/-- The text before the first `sep` in `l`. -/
def firstSegment (sep : Char) (l : List Char) : List Char :=
  l.takeWhile (fun c => c != sep)

/-- The text strictly between the first and the second `sep` in `l` (up to
the end when there is no second `sep`); `none` when `l` has no `sep`. -/
def secondSegment (sep : Char) (l : List Char) : Option (List Char) :=
  match l.dropWhile (fun c => c != sep) with
  | [] => none
  | _ :: rest => some (rest.takeWhile (fun c => c != sep))

/-- The optional suffix part `(-[a-zA-Z0-9.-]+)?$` of the specific-version
pattern. -/
def svSuffixOk : List Char → Bool
  | [] => true
  | c :: r =>
    c == '-' && !r.isEmpty && r.all (fun c => c.isAlphanum || c == '.' || c == '-')

/-- The `(\.[0-9]+)*` part of the specific-version pattern followed by
`svSuffixOk`; `fuel` only bounds the recursion depth. -/
def svTailAux : Nat → List Char → Bool
  | 0, l => svSuffixOk l
  | fuel + 1, l =>
    match l with
    | [] => true
    | c :: r =>
      if c = '.' ∧ r.takeWhile Char.isDigit ≠ [] then
        svTailAux fuel (r.dropWhile Char.isDigit)
      else svSuffixOk (c :: r)

/-- `VersionResolver.isSpecificVersion(version)`: the test
`/^[0-9]+(\.[0-9]+)*(-[a-zA-Z0-9.-]+)?$/.test(version)`. -/
def isSpecificVersion (s : String) : Bool :=
  !(s.data.takeWhile Char.isDigit).isEmpty &&
    svTailAux (s.data.length + 1) (s.data.dropWhile Char.isDigit)

/-- `VersionResolver.isVersionRange(version)`: whether one of the four
patterns `^\[.+\]$`, `^\(.+\)$`, `^\[.+\)$`, `^\(.+\]$` matches; the `.`
does not match line terminators and `.+` needs at least one character
between the delimiters. -/
def isVersionRange (s : String) : Bool :=
  match s.data.head?, s.data.getLast? with
  | some f, some la =>
    (f == '[' || f == '(') && (la == ']' || la == ')') &&
      decide (3 ≤ s.data.length) &&
      (s.data.drop 1).dropLast.all (fun c => !isLineTerm c)
  | _, _ => false

/-- The upstream `mavenCentralApi` calls made by `VersionResolver`, passed
in as data: the `getLatestVersion` result, the `versionExists` oracle and
the `getVersions` listing (sorted descending by the upstream). -/
structure UpstreamApi where
  latestVersion : Except JsError String
  versionExists : String → Bool
  versions : List String

/-- `VersionResolver.resolveVersion(groupId, artifactId, versionSpec)`:
handles `"latest"`/empty, then specific versions (verified against the
existence oracle), then ranges, then the literal fallback. -/
def resolveVersion (api : UpstreamApi) (groupId artifactId versionSpec : String) :
    Except JsError String :=
  if versionSpec = "latest" ∨ versionSpec = "" then api.latestVersion
  else if isSpecificVersion versionSpec then
    if api.versionExists versionSpec then .ok versionSpec
    else .error (VersionNotFoundError (groupId ++ ":" ++ artifactId) versionSpec)
  else if isVersionRange versionSpec then
    resolveVersionRange (groupId ++ ":" ++ artifactId) api.versions versionSpec
  else
    if api.versionExists versionSpec then .ok versionSpec
    else .error (VersionNotFoundError (groupId ++ ":" ++ artifactId) versionSpec)

/-- Whether `needle` occurs at the start of `hay`. -/
def substrAt : List Char → List Char → Bool
  | [], _ => true
  | _ :: _, [] => false
  | a :: as, b :: bs => a == b && substrAt as bs

/-- Whether `needle` occurs anywhere in `hay` (JavaScript
`String.prototype.includes`). -/
def containsSub (needle : List Char) : List Char → Bool
  | [] => substrAt needle []
  | c :: t => substrAt needle (c :: t) || containsSub needle t

/-- `message.includes(sub)` on JavaScript strings. -/
def strIncludes (s sub : String) : Bool :=
  containsSub sub.data s.data

/-- `ErrorHandler.handleApiError(error, context)` (always throws; the
returned value is the thrown error).  A `PackageReadmeMcpError` is
rethrown as-is; a plain `Error` is classified by name/message into
`NetworkError` / `RateLimitError` / generic `NetworkError`; anything else
becomes an `UNKNOWN_ERROR` `PackageReadmeMcpError`.  `none` models the
JavaScript `undefined` (`String(undefined) = "undefined"`). -/
def handleApiError (context : String) : Option JsError → JsError
  | some (.mcp m c s) => .mcp m c s
  | some (.jsError name msg) =>
    if name == "TypeError" && strIncludes msg "fetch" then
      NetworkError ("Failed to fetch data from " ++ context)
    else if strIncludes msg "timeout" || strIncludes msg "ETIMEDOUT" then
      NetworkError ("Request timeout for " ++ context)
    else if strIncludes msg "429" || strIncludes msg "rate limit" then
      RateLimitError context
    else NetworkError msg
  | some (.other d) => .mcp ("Unknown error in " ++ context ++ ": " ++ d) "UNKNOWN_ERROR" none
  | none => .mcp ("Unknown error in " ++ context ++ ": undefined") "UNKNOWN_ERROR" none

/-- The fatal-client-error test inside `withRetry`: a
`PackageReadmeMcpError` with a truthy `statusCode` in `[400, 500)` other
than 429 is not retried. -/
def fatalClientError : JsError → Bool
  | .mcp _ _ (some s) => decide (400 ≤ s) && decide (s < 500) && !(s == 429)
  | _ => false

/-- The outcome of a `withRetry` run: the settled result (`.error e` for a
rejected promise), how many times the operation was invoked, and the
list of backoff sleep durations in order. -/
structure RetryResult (α : Type) where
  result : Except JsError α
  invocations : Nat
  sleeps : List Nat
  deriving DecidableEq, Repr

/-- The `for (attempt = 1; attempt <= maxRetries; attempt++)` loop of
`ErrorHandler.withRetry`, for attempt numbers `attempt` and up; the
operation is modelled as the result of each attempt (`op n` is what the
`n`-th invocation settles to).  `fuel` is `maxRetries - attempt + 1`, the
number of attempts left (the loop exit is the `attempt = maxRetries`
check, so fuel never actually reaches 0 when it starts positive). -/
def retryAux (op : Nat → Except JsError α) (baseDelay : Nat) (context : String)
    (maxRetries : Nat) : Nat → Nat → List Nat → RetryResult α
  | _, 0, sleeps => ⟨.error (handleApiError context none), 0, sleeps⟩
  | attempt, fuel + 1, sleeps =>
    match op attempt with
    | .ok v => ⟨.ok v, attempt, sleeps⟩
    | .error e =>
      if fatalClientError e then ⟨.error e, attempt, sleeps⟩
      else if attempt = maxRetries then
        ⟨.error (handleApiError context (some e)), attempt, sleeps⟩
      else
        retryAux op baseDelay context maxRetries (attempt + 1) fuel
          (sleeps ++ [baseDelay * 2 ^ (attempt - 1)])

/-- `ErrorHandler.withRetry(operation, maxRetries, baseDelay, context)`:
runs the retry loop starting at attempt 1; with `maxRetries = 0` the loop
body never runs and `handleApiError(undefined)` is reached directly. -/
def withRetry (op : Nat → Except JsError α) (maxRetries baseDelay : Nat)
    (context : String) : RetryResult α :=
  if maxRetries = 0 then ⟨.error (handleApiError context none), 0, []⟩
  else retryAux op baseDelay context maxRetries 1 maxRetries []

/-- UTF-8 encoding of one character (`Buffer.from(params, 'utf8')`). -/
def utf8Bytes (c : Char) : List Nat :=
  if c.toNat < 128 then [c.toNat]
  else if c.toNat < 2048 then [192 + c.toNat / 64, 128 + c.toNat % 64]
  else if c.toNat < 65536 then
    [224 + c.toNat / 4096, 128 + c.toNat / 64 % 64, 128 + c.toNat % 64]
  else
    [240 + c.toNat / 262144, 128 + c.toNat / 4096 % 64, 128 + c.toNat / 64 % 64,
      128 + c.toNat % 64]

/-- UTF-8 encoding of a string as a byte list. -/
def utf8Encode (s : String) : List Nat := (s.data.map utf8Bytes).flatten

/-- The standard base64 alphabet. -/
def base64Alphabet : List Char :=
  "ABCDEFGHIJKLMNOPQRSTUVWXYZabcdefghijklmnopqrstuvwxyz0123456789+/".data

/-- The base64 digit for a 6-bit value. -/
def base64Char (n : Nat) : Char := base64Alphabet.getD n 'A'

/-- Base64 encoding with `=` padding (`buffer.toString('base64')`). -/
def base64Encode : List Nat → List Char
  | [] => []
  | [b1] => [base64Char (b1 / 4), base64Char (b1 % 4 * 16), '=', '=']
  | [b1, b2] =>
    [base64Char (b1 / 4), base64Char (b1 % 4 * 16 + b2 / 16),
      base64Char (b2 % 16 * 4), '=']
  | b1 :: b2 :: b3 :: rest =>
    base64Char (b1 / 4) :: base64Char (b1 % 4 * 16 + b2 / 16)
      :: base64Char (b2 % 16 * 4 + b3 / 64) :: base64Char (b3 % 64)
      :: base64Encode rest

/-- `CacheService.generateSearchKey(query, limit, quality, popularity)`:
joins the parameters with `:` (`limit?.toString() ?? '20'`, quality and
popularity falling back to `'any'`), base64-encodes the UTF-8 bytes,
strips every character outside `[a-zA-Z0-9]` and keeps the first 16
characters.  `quality` and `popularity` are JavaScript numbers in the
source; they are modelled here by their `Number.prototype.toString`
renderings (e.g. `"0.8"`). -/
def generateSearchKey (query : String) (limit : Option Nat)
    (quality popularity : Option String) : String :=
  "search:" ++ String.mk (((base64Encode (utf8Encode (String.intercalate ":"
    [query, (limit.map toString).getD "20", quality.getD "any",
      popularity.getD "any"]))).filter Char.isAlphanum).take 16)

theorem mapSet_length_le (m : Store α) (k : String) (e : CacheEntry α) :
    (mapSet m k e).length ≤ m.length + 1 := by
  unfold mapSet
  split
  · simp
  · simp

theorem mem_of_mem_cleanup {m : Store α} {now : Int} {kv : String × CacheEntry α}
    (h : kv ∈ cleanup now m) : kv ∈ m :=
  List.mem_of_mem_filter h

theorem mem_of_mem_mapDelete {m : Store α} {k : String} {kv : String × CacheEntry α}
    (h : kv ∈ mapDelete m k) : kv ∈ m :=
  List.mem_of_mem_filter h

theorem length_filter_lt_of_mem {l : List β} {p : β → Bool} {x : β}
    (hx : x ∈ l) (hpx : p x = false) : (l.filter p).length < l.length := by
  induction l with
  | nil => cases hx
  | cons a t ih =>
    rcases List.mem_cons.mp hx with rfl | hx'
    · rw [List.filter_cons, hpx]
      exact Nat.lt_succ_of_le (t.length_filter_le p)
    · rw [List.filter_cons]
      split
      · simpa using Nat.succ_lt_succ (ih hx')
      · exact Nat.lt_succ_of_lt (ih hx')

theorem mapDelete_length_lt {m : Store α} {k : String}
    (h : ∃ e, (k, e) ∈ m) : (mapDelete m k).length < m.length := by
  obtain ⟨e, he⟩ := h
  exact length_filter_lt_of_mem he (by simp)

theorem makeRoom_length_le (maxSize : Nat) (now : Int) (m : Store α)
    (hmax : 1 ≤ maxSize) (hkeys : ∀ kv ∈ m, kv.1 ≠ "")
    (hlen : m.length ≤ maxSize) :
    (makeRoom maxSize now m).length + 1 ≤ maxSize := by
  unfold makeRoom
  have hclean : (cleanup now m).length ≤ m.length := m.length_filter_le _
  split
  · split
    · rename_i hstill
      cases hhead : (cleanup now m).head? with
      | none =>
        rw [List.head?_eq_none_iff] at hhead
        rw [hhead] at hstill
        simp at hstill
        omega
      | some kv =>
        have hmem : kv ∈ cleanup now m := List.mem_of_mem_head? hhead
        have hk : kv.1 ≠ "" := hkeys kv (mem_of_mem_cleanup hmem)
        dsimp only
        rw [if_neg hk]
        have hdel : (mapDelete (cleanup now m) kv.1).length < (cleanup now m).length :=
          mapDelete_length_lt ⟨kv.2, by simpa using hmem⟩
        omega
    · omega
  · omega

theorem mem_of_mem_makeRoom {m : Store α} {maxSize : Nat} {now : Int}
    {kv : String × CacheEntry α} (h : kv ∈ makeRoom maxSize now m) : kv ∈ m := by
  unfold makeRoom at h
  split at h
  · split at h
    · split at h
      · split at h
        · exact mem_of_mem_cleanup h
        · exact mem_of_mem_cleanup (mem_of_mem_mapDelete h)
      · exact mem_of_mem_cleanup h
    · exact mem_of_mem_cleanup h
  · exact h

/-- A single `set` call preserves the capacity bound, provided the bound is
at least 1 and no key in the store is the empty string. -/
theorem cacheSet_length_le (maxSize : Nat) (now : Int) (k : String) (d : α)
    (t : Int) (m : Store α) (hmax : 1 ≤ maxSize)
    (hkeys : ∀ kv ∈ m, kv.1 ≠ "") (hlen : m.length ≤ maxSize) :
    (cacheSet maxSize now k d t m).length ≤ maxSize := by
  unfold cacheSet
  refine le_trans (mapSet_length_le _ _ _) ?_
  have := makeRoom_length_le maxSize now m hmax hkeys hlen
  omega

theorem cacheSet_keys_ne {m : Store α} (maxSize : Nat) (now : Int) {k : String}
    (d : α) (t : Int) (hk : k ≠ "") (hkeys : ∀ kv ∈ m, kv.1 ≠ "") :
    ∀ kv ∈ cacheSet maxSize now k d t m, kv.1 ≠ "" := by
  intro kv hkv
  unfold cacheSet mapSet at hkv
  split at hkv
  · rcases List.mem_map.mp hkv with ⟨kv', hkv', heq⟩
    by_cases hc : kv'.1 == k
    · rw [if_pos hc] at heq
      subst heq
      exact hk
    · rw [if_neg hc] at heq
      subst heq
      exact hkeys kv' (mem_of_mem_makeRoom hkv')
  · rcases List.mem_append.mp hkv with hkv' | hkv'
    · exact hkeys kv (mem_of_mem_makeRoom hkv')
    · simp at hkv'
      rw [hkv']
      exact hk

theorem runSets_invariant (maxSize : Nat) (ops : List (SetOp α))
    (hmax : 1 ≤ maxSize) (hops : ∀ op ∈ ops, op.key ≠ "") (m : Store α)
    (hkeys : ∀ kv ∈ m, kv.1 ≠ "") (hlen : m.length ≤ maxSize) :
    (ops.foldl (fun m op => cacheSet maxSize op.now op.key op.data op.ttl m) m).length
      ≤ maxSize := by
  induction ops generalizing m with
  | nil => simpa using hlen
  | cons op rest ih =>
    simp only [List.foldl_cons]
    have hop : op.key ≠ "" := hops op (List.mem_cons_self op rest)
    exact ih (fun o ho => hops o (List.mem_cons_of_mem op ho))
      (cacheSet maxSize op.now op.key op.data op.ttl m)
      (cacheSet_keys_ne maxSize op.now op.data op.ttl hop hkeys)
      (cacheSet_length_le maxSize op.now op.key op.data op.ttl m hmax hkeys hlen)

/-- C1: the capacity invariant fails on the code as stated: (a) with
`maxEntries = 1`, inserting under the empty-string key and then under a
fresh key leaves 2 entries, because `set` skips eviction when the oldest
key is falsy (`if (oldestKey)`), and the empty string is falsy; (b) with
`maxEntries = 0` any insertion exceeds the bound. -/
theorem runSets_capacity_counterexample :
    ¬ ((runSets 1 [⟨0, "", 0, 10⟩, ⟨0, "a", 1, 10⟩] : Store Nat).length ≤ 1) ∧
    ¬ ((runSets 0 [⟨0, "a", 0, 10⟩] : Store Nat).length ≤ 0) := by
  decide

/-- C1 (amended): for every sequence of `set` calls on a store constructed
with bound `maxEntries ≥ 1`, in which no call uses the empty string as
key, the number of entries in the store is at most `maxEntries` after
each call (every prefix of the sequence is such a sequence, so the bound
holds after every mutating operation). -/
theorem runSets_capacity (maxSize : Nat) (ops : List (SetOp α))
    (hmax : 1 ≤ maxSize) (hops : ∀ op ∈ ops, op.key ≠ "") :
    (runSets maxSize ops).length ≤ maxSize := by
  unfold runSets
  exact runSets_invariant maxSize ops hmax hops [] (by simp) (by simp)

theorem runSets_capacity_witness :
    (runSets 2 [⟨0, "a", 1, 10⟩, ⟨1, "b", 2, 10⟩, ⟨2, "c", 3, 10⟩] : Store Nat).length ≤ 2 :=
  runSets_capacity 2 [⟨0, "a", 1, 10⟩, ⟨1, "b", 2, 10⟩, ⟨2, "c", 3, 10⟩]
    (by decide) (by decide)

/-- C2: for an entry stored under `key` with TTL `t` at time `storedAt`,
`get(key)` returns the stored value (and leaves the store unchanged)
whenever `now - storedAt ≤ t`, and whenever `now - storedAt > t` it
deletes the entry as a side effect and reports absent; in particular
`get` never returns a stale value. -/
theorem cacheGet_ttl (m : Store α) (key : String) (e : CacheEntry α)
    (hget : mapGet m key = some e) (now : Int) :
    (now - e.timestamp ≤ e.ttl → cacheGet now key m = (some e.data, m)) ∧
    (now - e.timestamp > e.ttl → cacheGet now key m = (none, mapDelete m key)) := by
  unfold cacheGet
  rw [hget]
  constructor
  · intro h
    have hx : isExpired now e = false := by
      simp only [isExpired, decide_eq_false_iff_not]
      omega
    dsimp only
    rw [hx]
    simp
  · intro h
    have hx : isExpired now e = true := by
      simp only [isExpired, decide_eq_true_eq]
      omega
    dsimp only
    rw [hx]
    simp

theorem cacheGet_ttl_witness :
    cacheGet 149 "k" [("k", (⟨5, 100, 50⟩ : CacheEntry Nat))]
        = (some 5, [("k", ⟨5, 100, 50⟩)]) ∧
    cacheGet 151 "k" [("k", (⟨5, 100, 50⟩ : CacheEntry Nat))]
        = (none, mapDelete [("k", ⟨5, 100, 50⟩)] "k") := by
  have h := cacheGet_ttl [("k", (⟨5, 100, 50⟩ : CacheEntry Nat))] "k"
    ⟨5, 100, 50⟩ (by decide)
  exact ⟨(h 149).1 (by decide), (h 151).2 (by decide)⟩

/-- C6: on a store exactly at capacity containing at least one expired
entry, a `set` with a fresh key equals the cleanup sweep followed by a
plain insertion: every expired entry is removed by the sweep, every live
entry is preserved (no eviction happens, since the sweep brought the
store below capacity), and the new entry is appended. -/
theorem cacheSet_eviction_preference (maxSize : Nat) (now : Int) (k : String)
    (d : α) (t : Int) (m : Store α) (hcap : m.length = maxSize)
    (hexp : ∃ kv ∈ m, isExpired now kv.2 = true)
    (hfresh : ∀ kv ∈ m, kv.1 ≠ k) :
    cacheSet maxSize now k d t m = cleanup now m ++ [(k, ⟨d, now, t⟩)] ∧
    ∀ kv ∈ m, (isExpired now kv.2 = false → kv ∈ cacheSet maxSize now k d t m) ∧
      (isExpired now kv.2 = true → kv ∉ cacheSet maxSize now k d t m) := by
  have hlt : (cleanup now m).length < m.length := by
    obtain ⟨kv, hkv, hex⟩ := hexp
    exact length_filter_lt_of_mem hkv (by simp [hex])
  have hroom : makeRoom maxSize now m = cleanup now m := by
    unfold makeRoom
    rw [if_pos (by omega), if_neg (by omega)]
  have hany : (cleanup now m).any (fun kv => kv.1 == k) = false := by
    rw [List.any_eq_false]
    intro kv hkv
    simpa using hfresh kv (mem_of_mem_cleanup hkv)
  have hmain : cacheSet maxSize now k d t m = cleanup now m ++ [(k, ⟨d, now, t⟩)] := by
    unfold cacheSet mapSet
    rw [hroom, hany]
    simp
  refine ⟨hmain, ?_⟩
  intro kv hkv
  constructor
  · intro hlive
    rw [hmain]
    refine List.mem_append.mpr (Or.inl ?_)
    exact List.mem_filter.mpr ⟨hkv, by simp [hlive]⟩
  · intro hex
    rw [hmain]
    intro hmem
    rcases List.mem_append.mp hmem with hin | hin
    · have := (List.mem_filter.mp hin).2
      rw [hex] at this
      simp at this
    · simp at hin
      have := hfresh kv hkv
      rw [hin] at this
      simp at this

theorem cacheSet_eviction_preference_witness :
    cacheSet 2 10 "n" 3 50 [("e", (⟨1, 0, 5⟩ : CacheEntry Nat)), ("l", ⟨2, 0, 100⟩)]
        = cleanup 10 [("e", ⟨1, 0, 5⟩), ("l", ⟨2, 0, 100⟩)] ++ [("n", ⟨3, 10, 50⟩)] ∧
    ("l", (⟨2, 0, 100⟩ : CacheEntry Nat))
        ∈ cacheSet 2 10 "n" 3 50 [("e", ⟨1, 0, 5⟩), ("l", ⟨2, 0, 100⟩)] ∧
    ("e", (⟨1, 0, 5⟩ : CacheEntry Nat))
        ∉ cacheSet 2 10 "n" 3 50 [("e", ⟨1, 0, 5⟩), ("l", ⟨2, 0, 100⟩)] := by
  have h := cacheSet_eviction_preference 2 10 "n" 3 50
    [("e", (⟨1, 0, 5⟩ : CacheEntry Nat)), ("l", ⟨2, 0, 100⟩)] (by decide)
    ⟨("e", ⟨1, 0, 5⟩), by decide, by decide⟩ (by decide)
  exact ⟨h.1, (h.2 ("l", ⟨2, 0, 100⟩) (by decide)).1 (by decide),
    (h.2 ("e", ⟨1, 0, 5⟩) (by decide)).2 (by decide)⟩

/-- C7: the claim fails on the code: with a store `[a, b]` of two live
entries at capacity `maxEntries = 2`, calling `set("b", ...)` on the
already-present key `b` does trigger capacity handling and evicts the
entry under key `a` (first conjunct); moreover, a below-capacity
overwrite keeps the key's position in insertion order instead of
resetting it (second conjunct: `a` stays first). -/
theorem cacheSet_overwrite_counterexample :
    ("a", (⟨1, 0, 100⟩ : CacheEntry Nat)) ∉
        cacheSet 2 0 "b" 9 100 [("a", ⟨1, 0, 100⟩), ("b", ⟨2, 0, 100⟩)] ∧
    cacheSet 3 0 "a" 9 100 [("a", (⟨1, 0, 100⟩ : CacheEntry Nat)), ("b", ⟨2, 0, 100⟩)]
        = [("a", ⟨9, 0, 100⟩), ("b", ⟨2, 0, 100⟩)] := by
  decide

/-- C7 (amended): calling `set(key, value)` on a key already present in a
store strictly below capacity overwrites the entry in place, keeping the
key's position in insertion order and leaving every entry under a
different key unchanged; capacity handling runs whenever `size ≥
maxEntries` regardless of whether the key is present, so an at-capacity
overwrite may evict the first-inserted entry of a different key. -/
theorem cacheSet_overwrite (maxSize : Nat) (now : Int) (k : String) (d : α)
    (t : Int) (m : Store α) (e0 : CacheEntry α) (hlt : m.length < maxSize)
    (hmem : mapGet m k = some e0) :
    cacheSet maxSize now k d t m
      = m.map (fun kv => if kv.1 == k then (k, ⟨d, now, t⟩) else kv) := by
  unfold cacheSet
  have hroom : makeRoom maxSize now m = m := by
    unfold makeRoom
    rw [if_neg (by omega)]
  rw [hroom]
  unfold mapGet at hmem
  cases hfind : m.find? (fun kv => kv.1 == k) with
  | none => rw [hfind] at hmem; simp at hmem
  | some kv =>
    have hp := @List.find?_some _ (fun kv => kv.1 == k) kv m hfind
    have hany : m.any (fun kv => kv.1 == k) = true :=
      List.any_eq_true.mpr ⟨kv, List.mem_of_find?_eq_some hfind, hp⟩
    unfold mapSet
    rw [hany]
    simp

theorem cacheSet_overwrite_witness :
    cacheSet 3 7 "a" 9 100 [("a", (⟨1, 0, 100⟩ : CacheEntry Nat)), ("b", ⟨2, 0, 100⟩)]
      = ([("a", (⟨1, 0, 100⟩ : CacheEntry Nat)), ("b", ⟨2, 0, 100⟩)]).map
          (fun kv => if kv.1 == "a" then ("a", ⟨9, 7, 100⟩) else kv) :=
  cacheSet_overwrite 3 7 "a" 9 100 [("a", ⟨1, 0, 100⟩), ("b", ⟨2, 0, 100⟩)]
    ⟨1, 0, 100⟩ (by decide) (by decide)

theorem cmpNums_nil_neg (ys : List Nat) : cmpNums [] ys = - cmpNums ys [] := by
  induction ys with
  | nil => simp [cmpNums, cmpZeros]
  | cons b bs ih =>
    by_cases hb : b = 0
    · subst hb
      simpa [cmpNums, cmpZeros] using ih
    · have hb' : ¬ ((0 : Nat) = b) := fun h => hb h.symm
      simp only [cmpNums, cmpZeros, if_neg hb, if_neg hb']
      omega

theorem cmpNums_neg (xs ys : List Nat) : cmpNums xs ys = - cmpNums ys xs := by
  induction xs generalizing ys with
  | nil => exact cmpNums_nil_neg ys
  | cons a as ih =>
    cases ys with
    | nil =>
      by_cases ha : a = 0
      · subst ha
        simpa [cmpNums, cmpZeros] using ih []
      · have ha' : ¬ ((0 : Nat) = a) := fun h => ha h.symm
        simp only [cmpNums, cmpZeros, if_neg ha, if_neg ha']
        omega
    | cons b bs =>
      by_cases hab : a = b
      · subst hab
        simpa [cmpNums] using ih bs
      · have hab' : ¬ (b = a) := fun h => hab h.symm
        simp only [cmpNums, if_neg hab, if_neg hab']
        omega

theorem lexCompare_neg (xs ys : List Char) : lexCompare xs ys = - lexCompare ys xs := by
  induction xs generalizing ys with
  | nil => cases ys <;> simp [lexCompare]
  | cons a as ih =>
    cases ys with
    | nil => simp [lexCompare]
    | cons b bs =>
      rcases lt_trichotomy a b with h | h | h
      · simp [lexCompare, h, asymm h]
      · subst h
        simpa [lexCompare] using ih bs
      · simp [lexCompare, h, asymm h]

theorem compareVersions_neg (a b : String) :
    compareVersions a b = - compareVersions b a := by
  unfold compareVersions
  have hnum := cmpNums_neg (parseVersion a).numbers (parseVersion b).numbers
  by_cases hc : cmpNums (parseVersion a).numbers (parseVersion b).numbers = 0
  · have hc' : cmpNums (parseVersion b).numbers (parseVersion a).numbers = 0 := by omega
    rw [if_neg (not_not.mpr hc), if_neg (not_not.mpr hc')]
    by_cases hs : (parseVersion a).suffix = (parseVersion b).suffix
    · rw [if_neg (by simpa using hs), if_neg (by simp [hs])]
      simp
    · rw [if_pos hs, if_pos (fun h => hs h.symm)]
      by_cases ha : (parseVersion a).suffix = []
      · have hb : (parseVersion b).suffix ≠ [] := by
          intro h; exact hs (ha.trans h.symm)
        rw [if_pos ⟨ha, hb⟩, if_neg (by tauto), if_pos ⟨hb, ha⟩]
        simp
      · by_cases hb : (parseVersion b).suffix = []
        · rw [if_neg (by tauto), if_pos ⟨ha, hb⟩, if_pos ⟨hb, ha⟩]
        · rw [if_neg (by tauto), if_neg (by tauto), if_neg (by tauto),
            if_neg (by tauto)]
          exact lexCompare_neg _ _
  · rw [if_pos hc, if_pos (by omega)]
    omega

/-- C3: `compareVersions` induces a trichotomy — for all version strings
`a`, `b` exactly one of `compare(a,b) < 0`, `= 0`, `> 0` holds — and its
sign is antisymmetric: `sign (compare a b) = - sign (compare b a)` (in
fact `compare a b = - compare b a` holds, see `compareVersions_neg`). -/
theorem compareVersions_total_order (a b : String) :
    (compareVersions a b < 0 ∧ ¬ compareVersions a b = 0 ∧ ¬ 0 < compareVersions a b
     ∨ compareVersions a b = 0 ∧ ¬ compareVersions a b < 0 ∧ ¬ 0 < compareVersions a b
     ∨ 0 < compareVersions a b ∧ ¬ compareVersions a b < 0 ∧ ¬ compareVersions a b = 0)
    ∧ Int.sign (compareVersions a b) = - Int.sign (compareVersions b a) := by
  constructor
  · rcases lt_trichotomy (compareVersions a b) 0 with h | h | h
    · exact Or.inl ⟨h, by omega, by omega⟩
    · exact Or.inr (Or.inl ⟨h, by omega, by omega⟩)
    · exact Or.inr (Or.inr ⟨h, by omega, by omega⟩)
  · rw [compareVersions_neg a b]
    exact Int.sign_neg _

theorem versionMatchesRange_eq_rangeSatisfies (v : String) (r : VersionRange) :
    versionMatchesRange v r.minVersion r.maxVersion r.includeMin r.includeMax
      = rangeSatisfies v r := by
  unfold versionMatchesRange rangeSatisfies
  cases r.minVersion <;> cases r.maxVersion <;>
    cases hmin : r.includeMin <;> cases hmax : r.includeMax <;>
    simp [← decide_not, Int.not_lt, Int.not_le]

theorem head?_filter_eq_find? (p : β → Bool) (l : List β) :
    (l.filter p).head? = l.find? p := by
  induction l with
  | nil => simp
  | cons a t ih =>
    by_cases h : p a
    · simp [List.filter_cons, h, List.find?_cons_of_pos _ h]
    · simp only [List.filter_cons, h, List.find?_cons_of_neg _ (by simpa using h)]
      simp only [Bool.false_eq_true, if_false]
      exact ih

theorem resolveVersionRange_eq_find? (packageName : String)
    (versions : List String) (range : String) :
    resolveVersionRange packageName versions range
      = match versions.find? (fun v => rangeSatisfies v (parseVersionRange range)) with
        | some v => .ok v
        | none => .error (VersionNotFoundError packageName range) := by
  unfold resolveVersionRange
  have hp : (fun v =>
      versionMatchesRange v (parseVersionRange range).minVersion
        (parseVersionRange range).maxVersion (parseVersionRange range).includeMin
        (parseVersionRange range).includeMax)
      = fun v => rangeSatisfies v (parseVersionRange range) :=
    funext fun v => versionMatchesRange_eq_rangeSatisfies v (parseVersionRange range)
  rw [hp, ← head?_filter_eq_find?]
  cases versions.filter (fun v => rangeSatisfies v (parseVersionRange range)) with
  | nil => simp
  | cons v t => simp

/-- C4: range resolution returns the first (hence highest, the known
versions being listed descending) known version satisfying both bounds
with their inclusivity, and fails with `VersionNotFoundError` naming the
original range string when no known version matches; in particular, for
known versions `["2.1.0","2.0.0","1.9.0","1.8.0","1.5.0","1.4.0"]` and
range `"[1.5,2.0)"` the resolved version is `"1.9.0"`. -/
theorem resolveVersionRange_correct (packageName : String)
    (versions : List String) (range : String) :
    (resolveVersionRange packageName versions range
      = match versions.find? (fun v => rangeSatisfies v (parseVersionRange range)) with
        | some v => .ok v
        | none => .error (VersionNotFoundError packageName range)) ∧
    resolveVersionRange "group:artifact"
        ["2.1.0", "2.0.0", "1.9.0", "1.8.0", "1.5.0", "1.4.0"] "[1.5,2.0)"
      = .ok "1.9.0" :=
  ⟨resolveVersionRange_eq_find? packageName versions range, by decide⟩

theorem jsSplit_ne_nil (sep : Char) (l : List Char) : jsSplit sep l ≠ [] := by
  cases l with
  | nil => simp [jsSplit]
  | cons c cs => by_cases h : c = sep <;> simp [jsSplit, h]

theorem jsSplit_head? (sep : Char) (l : List Char) :
    (jsSplit sep l).head? = some (firstSegment sep l) := by
  induction l with
  | nil => simp [jsSplit, firstSegment]
  | cons c cs ih =>
    by_cases h : c = sep
    · simp [jsSplit, firstSegment, h]
    · simp only [jsSplit, if_neg h, List.head?_cons, Option.some.injEq, firstSegment]
      rw [List.takeWhile_cons_of_pos (by simpa using h)]
      have := ih
      simp only [firstSegment] at this
      cases hsplit : jsSplit sep cs with
      | nil => rw [hsplit] at this; simp at this
      | cons p ps =>
        rw [hsplit] at this
        simp at this
        simp [this]

theorem jsSplit_drop_one_head? (sep : Char) (l : List Char) :
    ((jsSplit sep l).drop 1).head? = secondSegment sep l := by
  induction l with
  | nil => simp [jsSplit, secondSegment]
  | cons c cs ih =>
    by_cases h : c = sep
    · subst h
      simp only [jsSplit, if_pos rfl, List.drop_succ_cons, List.drop_zero, secondSegment]
      rw [List.dropWhile_cons_of_neg (by simp)]
      exact jsSplit_head? c cs
    · simp only [jsSplit, if_neg h, List.drop_succ_cons, List.drop_zero, secondSegment]
      rw [List.dropWhile_cons_of_pos (by simpa using h)]
      have := ih
      simp only [secondSegment] at this
      rw [← this, List.drop_one]

/-- `stripOuter` on a string delimited by a bracket/parenthesis at both
ends removes exactly the two delimiters. -/
theorem stripOuter_delimited (d1 d2 : Char) (inner : List Char)
    (hd1 : d1 = '[' ∨ d1 = '(') (hd2 : d2 = ']' ∨ d2 = ')') :
    stripOuter (d1 :: (inner ++ [d2])) = inner := by
  unfold stripOuter
  simp only [if_pos hd1]
  rw [List.getLast?_concat inner]
  simp only [if_pos hd2]
  exact List.dropLast_concat

/-- C8: the claim's "splits on the first comma" is wrong for strings with
more than one comma: for `"[1.0,2.0,3.0]"` the code's upper bound text is
`"2.0"` (the segment between the first and second comma), not
`"2.0,3.0"` (everything after the first comma). -/
theorem parseVersionRange_counterexample :
    (parseVersionRange "[1.0,2.0,3.0]").maxVersion = some "2.0" ∧
    (parseVersionRange "[1.0,2.0,3.0]").maxVersion ≠ some "2.0,3.0" := by
  decide

/-- C8 (amended): for every range string, parsing strips one leading `[`
or `(` and one trailing `]` or `)`, splits the remaining content at
commas taking the lower text to be the segment before the first comma
and the upper text the segment between the first and second comma (text
after a second comma is discarded); each segment is trimmed, an empty
result yields an unbounded side; the lower bound is inclusive iff the
string starts with `[` and the upper bound is inclusive iff it ends with
`]`. -/
theorem parseVersionRange_spec (range : String) :
    parseVersionRange range =
      { minVersion := emptyToNone (jsTrim (firstSegment ',' (stripOuter range.data)))
      , maxVersion :=
          (secondSegment ',' (stripOuter range.data)).bind (fun u => emptyToNone (jsTrim u))
      , includeMin := range.data.head? == some '['
      , includeMax := range.data.getLast? == some ']' } ∧
    ∀ d1 d2 : Char, ∀ inner : List Char, (d1 = '[' ∨ d1 = '(') →
      (d2 = ']' ∨ d2 = ')') → stripOuter (d1 :: (inner ++ [d2])) = inner := by
  constructor
  · unfold parseVersionRange
    simp only [VersionRange.mk.injEq]
    refine ⟨?_, ?_, trivial, trivial⟩
    · rw [jsSplit_head? ',' (stripOuter range.data)]
      simp
    · rw [jsSplit_drop_one_head? ',' (stripOuter range.data)]
      cases secondSegment ',' (stripOuter range.data) with
      | none => simp
      | some u => simp
  · intro d1 d2 inner hd1 hd2
    exact stripOuter_delimited d1 d2 inner hd1 hd2

theorem parseVersionRange_spec_witness :
    parseVersionRange "[1.5,2.0)" =
      { minVersion := emptyToNone (jsTrim (firstSegment ',' (stripOuter "[1.5,2.0)".data)))
      , maxVersion :=
          (secondSegment ',' (stripOuter "[1.5,2.0)".data)).bind
            (fun u => emptyToNone (jsTrim u))
      , includeMin := "[1.5,2.0)".data.head? == some '['
      , includeMax := "[1.5,2.0)".data.getLast? == some ']' } ∧
    stripOuter ('[' :: ("1.5,2.0".data ++ [')'])) = "1.5,2.0".data :=
  ⟨(parseVersionRange_spec "[1.5,2.0)").1,
    (parseVersionRange_spec "[1.5,2.0)").2 '[' ')' "1.5,2.0".data
      (Or.inl rfl) (Or.inr rfl)⟩

/-- C10: a specifier that is delimited by brackets/parentheses at both
ends but contains no comma is classified as a range (not as a specific
version), parses with the enclosed (trimmed) text as lower bound —
inclusivity from the opening delimiter — and an absent upper bound, and
`resolveVersion` resolves it to the first (hence highest) known version
satisfying that lower bound, not to exactly the enclosed version. -/
theorem resolveVersion_bracket_no_comma (api : UpstreamApi)
    (groupId artifactId s : String) (d1 d2 : Char) (inner : List Char)
    (hs : s.data = d1 :: (inner ++ [d2]))
    (hd1 : d1 = '[' ∨ d1 = '(') (hd2 : d2 = ']' ∨ d2 = ')')
    (hcomma : ∀ c ∈ inner, c ≠ ',') (hne : inner ≠ [])
    (hlt : ∀ c ∈ inner, isLineTerm c = false) :
    isSpecificVersion s = false ∧
    isVersionRange s = true ∧
    parseVersionRange s =
      { minVersion := emptyToNone (jsTrim inner), maxVersion := none,
        includeMin := d1 == '[', includeMax := d2 == ']' } ∧
    resolveVersion api groupId artifactId s
      = resolveVersionRange (groupId ++ ":" ++ artifactId) api.versions s ∧
    resolveVersionRange (groupId ++ ":" ++ artifactId) api.versions s
      = match api.versions.find? (fun v => rangeSatisfies v
            { minVersion := emptyToNone (jsTrim inner), maxVersion := none,
              includeMin := d1 == '[', includeMax := d2 == ']' }) with
        | some v => .ok v
        | none => .error (VersionNotFoundError (groupId ++ ":" ++ artifactId) s) := by
  have hdigit : Char.isDigit d1 = false := by
    rcases hd1 with h | h <;> rw [h] <;> decide
  have hspec : isSpecificVersion s = false := by
    unfold isSpecificVersion
    rw [hs, List.takeWhile_cons_of_neg (by simp [hdigit])]
    simp
  have hrange : isVersionRange s = true := by
    unfold isVersionRange
    have hlast : s.data.getLast? = some d2 := by
      rw [hs, show d1 :: (inner ++ [d2]) = (d1 :: inner) ++ [d2] from rfl,
        List.getLast?_concat]
    have hheadq : s.data.head? = some d1 := by rw [hs]; rfl
    rw [hheadq, hlast]
    have hlen : 3 ≤ s.length := by
      rw [show s.length = s.data.length from rfl, hs]
      have := List.length_pos.mpr hne
      simp
      omega
    have hmid : (s.data.drop 1).dropLast = inner := by
      rw [hs, List.drop_succ_cons, List.drop_zero, List.dropLast_concat]
    rw [hmid]
    have hall : inner.all (fun c => !isLineTerm c) = true :=
      List.all_eq_true.mpr (fun c hc => by simp [hlt c hc])
    rcases hd1 with h1 | h1 <;> rcases hd2 with h2 | h2 <;>
      rw [h1, h2] <;> simp [hall, hlen]
  have hstrip : stripOuter s.data = inner := by
    rw [hs]
    exact stripOuter_delimited d1 d2 inner hd1 hd2
  have hfirst : firstSegment ',' inner = inner := by
    unfold firstSegment
    exact List.takeWhile_eq_self_iff.mpr (fun c hc => by simp [hcomma c hc])
  have hsecond : secondSegment ',' inner = none := by
    unfold secondSegment
    rw [List.dropWhile_eq_nil_iff.mpr (fun c hc => by simp [hcomma c hc])]
  have hparse : parseVersionRange s =
      { minVersion := emptyToNone (jsTrim inner), maxVersion := none,
        includeMin := d1 == '[', includeMax := d2 == ']' } := by
    unfold parseVersionRange
    simp only [VersionRange.mk.injEq]
    refine ⟨?_, ?_, ?_, ?_⟩
    · rw [hstrip, jsSplit_head? ',' inner, hfirst]
      simp
    · rw [hstrip, jsSplit_drop_one_head? ',' inner, hsecond]
      simp
    · rw [hs]
      simp
    · rw [hs, show d1 :: (inner ++ [d2]) = (d1 :: inner) ++ [d2] from rfl,
        List.getLast?_concat]
      simp
  have hne1 : ¬ (s = "latest" ∨ s = "") := by
    rintro (h | h)
    · have h2 : s.data.head? = some 'l' := by rw [h]; rfl
      rw [hs] at h2
      simp at h2
      rcases hd1 with h1 | h1 <;> rw [h1] at h2 <;> exact absurd h2 (by decide)
    · rw [h] at hs
      simp at hs
  have hres : resolveVersion api groupId artifactId s
      = resolveVersionRange (groupId ++ ":" ++ artifactId) api.versions s := by
    unfold resolveVersion
    rw [if_neg hne1, hspec, hrange]
    simp
  refine ⟨hspec, hrange, hparse, hres, ?_⟩
  rw [resolveVersionRange_eq_find? (groupId ++ ":" ++ artifactId) api.versions s, hparse]

theorem resolveVersion_bracket_no_comma_witness :
    isSpecificVersion "[1.0]" = false ∧
    isVersionRange "[1.0]" = true ∧
    parseVersionRange "[1.0]" =
      { minVersion := emptyToNone (jsTrim "1.0".data), maxVersion := none,
        includeMin := '[' == '[', includeMax := ']' == ']' } ∧
    resolveVersion ⟨.ok "2.1.0", fun _ => true, ["2.1.0", "1.0.0"]⟩ "g" "a" "[1.0]"
      = resolveVersionRange ("g" ++ ":" ++ "a") ["2.1.0", "1.0.0"] "[1.0]" ∧
    resolveVersionRange ("g" ++ ":" ++ "a") ["2.1.0", "1.0.0"] "[1.0]"
      = match ["2.1.0", "1.0.0"].find? (fun v => rangeSatisfies v
            { minVersion := emptyToNone (jsTrim "1.0".data), maxVersion := none,
              includeMin := '[' == '[', includeMax := ']' == ']' }) with
        | some v => .ok v
        | none => .error (VersionNotFoundError ("g" ++ ":" ++ "a") "[1.0]") :=
  resolveVersion_bracket_no_comma ⟨.ok "2.1.0", fun _ => true, ["2.1.0", "1.0.0"]⟩
    "g" "a" "[1.0]" '[' ']' "1.0".data (by decide) (Or.inl rfl) (Or.inl rfl)
    (by decide) (by decide) (by decide)

theorem retryAux_always_fail (op : Nat → Except JsError α) (es : Nat → JsError)
    (baseDelay : Nat) (context : String) (maxRetries : Nat)
    (hop : ∀ n, op n = .error (es n)) (hnf : ∀ n, fatalClientError (es n) = false) :
    ∀ fuel attempt sleeps, attempt + fuel = maxRetries + 1 → 1 ≤ fuel →
    retryAux op baseDelay context maxRetries attempt fuel sleeps =
      ⟨.error (handleApiError context (some (es maxRetries))), maxRetries,
        sleeps ++ (List.range' attempt (maxRetries - attempt)).map
          (fun i => baseDelay * 2 ^ (i - 1))⟩ := by
  intro fuel
  induction fuel with
  | zero => intro attempt sleeps _ h1; omega
  | succ f ih =>
    intro attempt sleeps hsum _
    unfold retryAux
    rw [hop attempt]
    dsimp only
    rw [hnf attempt]
    simp only [Bool.false_eq_true, if_false]
    by_cases hlast : attempt = maxRetries
    · rw [if_pos hlast, hlast]
      have : maxRetries - maxRetries = 0 := by omega
      rw [this]
      simp
    · rw [if_neg hlast]
      have hf : 1 ≤ f := by omega
      rw [ih (attempt + 1) (sleeps ++ [baseDelay * 2 ^ (attempt - 1)]) (by omega) hf]
      have hrange : List.range' attempt (maxRetries - attempt)
          = attempt :: List.range' (attempt + 1) (maxRetries - (attempt + 1)) := by
        have h1 : maxRetries - attempt = (maxRetries - (attempt + 1)) + 1 := by omega
        rw [h1, List.range'_succ]
      rw [hrange]
      simp

theorem handleApiError_mcp (context : String) (e : Option JsError) :
    ∃ m c sc, handleApiError context e = .mcp m c sc := by
  match e with
  | none => exact ⟨_, _, _, rfl⟩
  | some (.mcp m c s) => exact ⟨m, c, s, rfl⟩
  | some (.other d) => exact ⟨_, _, _, rfl⟩
  | some (.jsError n msg) =>
    simp only [handleApiError]
    split
    · exact ⟨_, _, _, rfl⟩
    · split
      · exact ⟨_, _, _, rfl⟩
      · split
        · exact ⟨_, _, _, rfl⟩
        · exact ⟨_, _, _, rfl⟩

/-- C5: (first conjunct) an operation that fails on every attempt with a
non-fatal (retryable) error is invoked exactly `maxRetries` times, the
surfaced error is the `handleApiError` translation of the last error —
always a typed `PackageReadmeMcpError`-family error — and the sleep
before retry `i + 2` is `baseDelay * 2 ^ i` (i.e. `baseDelay *
2^(attempt-1)`); (second conjunct) an operation whose first attempt fails
with an HTTP status in `[400, 500)` other than 429 (e.g. 404) is invoked
exactly once, its error propagating unchanged with no sleeps. -/
theorem withRetry_claim (op : Nat → Except JsError α) (maxRetries baseDelay : Nat)
    (context : String) :
    (∀ es : Nat → JsError, 1 ≤ maxRetries → (∀ n, op n = .error (es n)) →
      (∀ n, fatalClientError (es n) = false) →
      withRetry op maxRetries baseDelay context =
        ⟨.error (handleApiError context (some (es maxRetries))), maxRetries,
          (List.range (maxRetries - 1)).map (fun i => baseDelay * 2 ^ i)⟩ ∧
      ∃ m c sc, handleApiError context (some (es maxRetries)) = .mcp m c sc) ∧
    (∀ e m c sc, op 1 = .error e → e = .mcp m c (some sc) → 400 ≤ sc → sc < 500 →
      sc ≠ 429 → 1 ≤ maxRetries →
      withRetry op maxRetries baseDelay context = ⟨.error e, 1, []⟩) := by
  constructor
  · intro es hmax hop hnf
    constructor
    · unfold withRetry
      rw [if_neg (by omega)]
      rw [retryAux_always_fail op es baseDelay context maxRetries hop hnf
          maxRetries 1 [] (by omega) (by omega)]
      have : List.range' 1 (maxRetries - 1) = (List.range (maxRetries - 1)).map (1 + ·) := by
        rw [List.range'_eq_map_range]
      rw [this]
      simp only [List.map_map, List.nil_append]
      congr 1
      refine List.map_congr_left (fun i _ => ?_)
      simp [Nat.add_sub_cancel_left]
    · exact handleApiError_mcp context (some (es maxRetries))
  · intro e m c sc hop1 hmcp h400 h500 h429 hmax
    unfold withRetry
    rw [if_neg (by omega)]
    cases maxRetries with
    | zero => omega
    | succ mr =>
      unfold retryAux
      rw [hop1]
      dsimp only
      have hfatal : fatalClientError e = true := by
        rw [hmcp]
        unfold fatalClientError
        simp only [Bool.and_eq_true, decide_eq_true_eq, Bool.not_eq_true']
        refine ⟨⟨h400, h500⟩, ?_⟩
        simpa using h429
      rw [hfatal]
      simp

theorem withRetry_claim_witness :
    (withRetry (fun _ => .error (NetworkError "boom")) 3 100 "ctx" : RetryResult Nat)
      = ⟨.error (handleApiError "ctx" (some (NetworkError "boom"))), 3,
          (List.range 2).map (fun i => 100 * 2 ^ i)⟩ ∧
    (withRetry (fun _ => .error (VersionNotFoundError "g:a" "9.9.9")) 3 100 "ctx"
        : RetryResult Nat)
      = ⟨.error (VersionNotFoundError "g:a" "9.9.9"), 1, []⟩ := by
  have h1 := (withRetry_claim (α := Nat) (fun _ => .error (NetworkError "boom"))
    3 100 "ctx").1 (fun _ => NetworkError "boom") (by decide) (fun _ => rfl)
    (fun _ => rfl)
  have h2 := (withRetry_claim (α := Nat)
    (fun _ => .error (VersionNotFoundError "g:a" "9.9.9")) 3 100 "ctx").2
    (VersionNotFoundError "g:a" "9.9.9")
    ("Version \x279.9.9\x27 of package \x27g:a\x27 not found") "VERSION_NOT_FOUND" 404
    rfl rfl (by decide) (by decide) (by decide) (by decide)
  exact ⟨h1.1, h2⟩

/-- C9: the code violates the claim: for the claim's own example tuple
`("spring boot", 10, 0.8, 0.6)`, varying the limit from 10 to 20 yields
the *same* key.  The 16 kept base64 characters encode only the first 12
UTF-8 bytes of `"query:limit:quality:popularity"`, i.e. exactly
`"spring boot:"`, so every parameter after the 12th byte is ignored.
(Same inputs do yield the same key: the function is pure.) -/
theorem generateSearchKey_collision :
    generateSearchKey "spring boot" (some 10) (some "0.8") (some "0.6")
      = generateSearchKey "spring boot" (some 20) (some "0.8") (some "0.6") ∧
    generateSearchKey "spring boot" (some 10) (some "0.8") (some "0.6")
      = "search:c3ByaW5nIGJvb3Q6" := by
  decide
